import Mathlib

/-!
# Verification of `src/lib_hacl_glue/js/src/hacl_stubs.js`

A shallow embedding of the JavaScript glue between the js_of_ocaml runtime
(byte strings, `MlBytes`) and the external HACL* WebAssembly library (`_HACL`),
followed by theorems about the hex codec, the byte-buffer adapters, the random
source and the NaCl dispatch stubs.

Conventions of the embedding

* A JavaScript string is a list of UTF-16 code units (`JSString`).
* A `Uint8Array` is a list of bytes (`ByteBuffer`); its length is the list length.
* An `MlBytes` object lives in a heap and is named by a reference; its observable
  content is its `l` bytes.
* A call that can throw returns `Except JsThrown _`: `.ok` is the normal result
  channel and `.error` is a thrown exception.
* The external library, the platform random sources and the js_of_ocaml runtime
  primitives are not part of the file under study; they appear as parameters or
  as small documented models.
-/

deriving instance DecidableEq for Except

namespace HaclStubs

set_option maxRecDepth 100000

/-! ## JavaScript values -/

/-- A UTF-16 code unit of a JavaScript string. -/
abbrev CodeUnit := Nat

/-- A JavaScript string, as its sequence of code units. -/
abbrev JSString := List CodeUnit

/-- One element of a `Uint8Array`. -/
abbrev Byte := Fin 256

/-- A `Uint8Array`: fixed length, mutable in JavaScript, a list of bytes here. -/
abbrev ByteBuffer := List Byte

/-- The code units of an ASCII literal. -/
def js (s : String) : JSString := s.toList.map Char.toNat

/-- What a JavaScript call can throw. -/
inductive JsThrown where
  | typeError (msg : String)
  | referenceError (msg : String)
  | assertionError (msg : String)
  | thrownString (s : String)
  deriving DecidableEq, Repr

/-! ## ECMAScript built-ins used by the hex codec -/

/-- The method `Number.prototype.toString(16)` on a non-negative integer: lower-case
digits, no leading zero. -/
def numberToString16 (x : Nat) : JSString := (Nat.toDigits 16 x).map Char.toNat

/-- The method `String.prototype.slice(-2)`: the last two code units (the whole string
when it is shorter). -/
def sliceLast2 (s : JSString) : JSString := s.drop (s.length - 2)

/-- The method `Array.prototype.join('')`. -/
def joinEmpty : List JSString → JSString
  | [] => []
  | s :: rest => s ++ joinEmpty rest

/-- Line terminators: the code units the regular expression `.` does not match. -/
def isLineTerminator (c : CodeUnit) : Bool :=
  c == 0x0A || c == 0x0D || c == 0x2028 || c == 0x2029

/-- White space and line terminators, removed by `parseInt` from the front of its
argument. -/
def isWhiteSpace (c : CodeUnit) : Bool :=
  c == 0x09 || c == 0x0B || c == 0x0C || c == 0x20 || c == 0xA0 || c == 0x1680 ||
  (0x2000 ≤ c && c ≤ 0x200A) || c == 0x202F || c == 0x205F || c == 0x3000 ||
  c == 0xFEFF || isLineTerminator c

/-- All successive matches of `/.{2}/g`, scanning left to right: two adjacent code
units that are not line terminators match and the scan resumes after them; otherwise
the scan moves one code unit forward. -/
def matchPairs : JSString → List JSString
  | [] => []
  | [_] => []
  | a :: b :: rest =>
    if isLineTerminator a || isLineTerminator b then matchPairs (b :: rest)
    else [a, b] :: matchPairs rest

/-- The call `hexString.match(/.{2}/g)`: the array of matches, or `null` (`none`) when
there is none. -/
def matchAllPairs (hexString : JSString) : Option (List JSString) :=
  match matchPairs hexString with
  | [] => none
  | ms => some ms

/-- Value of a code unit as a radix-16 digit. -/
def hexDigitValue (c : CodeUnit) : Option Nat :=
  if 48 ≤ c ∧ c ≤ 57 then some (c - 48)
  else if 97 ≤ c ∧ c ≤ 102 then some (c - 87)
  else if 65 ≤ c ∧ c ≤ 70 then some (c - 55)
  else none

/-- Removal of a leading `+` or `-` (step 4 of `parseInt`). -/
def stripSign : JSString → JSString
  | c :: rest => if c = 43 ∨ c = 45 then rest else c :: rest
  | [] => []

/-- Removal of a leading `0x` or `0X` (radix 16 only). -/
def stripHexPrefix : JSString → JSString
  | 48 :: x :: rest => if x = 120 ∨ x = 88 then rest else 48 :: x :: rest
  | s => s

/-- The call `parseInt(s, 16)`; `none` is `NaN`. The result is exact as long as
it fits a double, which is the case for the two-code-unit strings `hex2buf` passes. -/
def parseInt16 (s : JSString) : Option Int :=
  let trimmed := s.dropWhile isWhiteSpace
  let sign : Int := if trimmed.head? = some 45 then -1 else 1
  let body := stripHexPrefix (stripSign trimmed)
  let digits := body.takeWhile (fun c => (hexDigitValue c).isSome)
  if digits = [] then none
  else some (sign * ((digits.foldl (fun acc c => acc * 16 + (hexDigitValue c).getD 0) 0 : Nat) : Int))

/-- The conversion a `Uint8Array` applies to a stored number: `NaN` becomes 0, an
integer is reduced modulo 256. -/
def toUint8 : Option Int → Byte
  | none => 0
  | some z => ⟨(z % 256).toNat, by omega⟩

/-! ## The hex codec (lines 4 to 22) -/

/-- The function `buf2hex`: every byte becomes the last two code units of `'00'`
followed by its hexadecimal writing, and the pieces are joined. -/
def buf2hex (buffer : ByteBuffer) : JSString :=
  joinEmpty (buffer.map (fun x => sliceLast2 (js "00" ++ numberToString16 x.val)))

/-- The two code units `buf2hex` writes for one byte (the body of its callback). -/
def hexPair (x : Byte) : JSString := sliceLast2 (js "00" ++ numberToString16 x.val)

/-- The function `hex2buf`: the empty string gives the empty buffer; otherwise the
matches of `/.{2}/g` are each read by `parseInt(_, 16)` and stored in a new
`Uint8Array`. When `match` returns `null` the call of `.map` on it throws a
`TypeError`. -/
def hex2buf (hexString : JSString) : Except JsThrown ByteBuffer :=
  if hexString = [] then .ok []
  else
    match matchAllPairs hexString with
    | none => .error (.typeError "Cannot read properties of null")
    | some ms => .ok (ms.map (fun byte => toUint8 (parseInt16 byte)))

/-! ## Byte strings of the runtime and the heap -/

/-- The observable content of an `MlBytes` object: its `l` bytes, in order. -/
abbrev MlBytes := List Byte

/-- The identity of a JavaScript object holding an `MlBytes`. -/
abbrev Ref := Nat

/-- The heap: the content of every `MlBytes` object. Two parameters of a stub that
are the same object are the same reference. -/
abbrev Heap := Ref → MlBytes

/-- Replacement of the content of one object. -/
def Heap.write (h : Heap) (r : Ref) (v : MlBytes) : Heap :=
  fun r' => if r' = r then v else h r'

/-- Modelled from the spec: the js_of_ocaml runtime primitive `caml_bytes_unsafe_get`
is not in the source file; it reads the byte at an index of a byte string (a
sequence of bytes with a known length). -/
def caml_bytes_unsafe_get (s : MlBytes) (i : Nat) : Byte := s.getD i 0

/-- Modelled from the spec: the js_of_ocaml runtime primitive `caml_string_unsafe_set`
is not in the source file; it stores one byte at an index of a byte string and
keeps its length. A store outside the string is outside the contract of the
primitive; the model drops it, and the claims below are settled on stores that
fall inside the destination. -/
def caml_string_unsafe_set (s : MlBytes) (i : Nat) (c : Byte) : MlBytes := s.set i c

/-! ## The byte-buffer adapters (lines 24 to 57) -/

/-- The function `MlBytes2buf`: a fresh zero-filled `Uint8Array` of length `l`, then
one store per index `0 .. l-1`. -/
def MlBytes2buf (s : MlBytes) : ByteBuffer :=
  (List.range s.length).foldl (fun buf i => buf.set i (caml_bytes_unsafe_get s i))
    (List.replicate s.length 0)

/-- The body of `buf.forEach(function(uint8, index) ...)` in `blit_buf_onto_MlBytes`,
from index `index` on. -/
def blitFrom : Nat → ByteBuffer → MlBytes → MlBytes
  | _, [], d => d
  | index, uint8 :: rest, d => blitFrom (index + 1) rest (caml_string_unsafe_set d index uint8)

/-- The function `blit_buf_onto_MlBytes`: one store per element of `buf`, at the
index of the element, with no test on the lengths; the result is always the
number 0. -/
def blit_buf_onto_MlBytes (buf : ByteBuffer) (dst : Ref) (h : Heap) : Heap × Nat :=
  (h.write dst (blitFrom 0 buf (h dst)), 0)

/-! ## The random source (lines 59 to 79) -/

/-- The constant `QUOTA` of the browser branch. -/
def QUOTA : Nat := 65536

/-- The bytes delivered by a platform random source: `e k j` is the byte at offset
`j` of the answer to the request number `k`. -/
abbrev Entropy := Nat → Nat → Byte

/-- A request made to a platform random source. -/
inductive RngCall where
  | getRandomValues (start stop : Nat)
  | randomBytes (size : Nat)
  deriving DecidableEq, Repr

/-- The state a random stub acts on: the heap and the requests made so far. -/
structure World where
  heap : Heap
  rngCalls : List RngCall

/-- The outcome of the test
`typeof self !== 'undefined' && (self.crypto || self.msCrypto)`, with the random
source of the selected branch. -/
inductive Platform where
  | browser (crypto : Entropy)
  | node (crypto : Entropy)

/-- What the random stub can return: a boolean or a function object. -/
inductive StubValue where
  | bool (b : Bool)
  | closure (f : Nat → World → World × Bool)

/-- The call `crypto.getRandomValues(result.subarray(start, stop))`: the positions
`start .. stop-1` of `result` receive fresh bytes. -/
def fillView (result : ByteBuffer) (start stop : Nat) (src : Nat → Byte) : ByteBuffer :=
  (List.range result.length).map
    (fun j => if start ≤ j ∧ j < stop then src (j - start) else result.getD j 0)

/-- The loop `for (var i = 0; i < n; i += QUOTA)` of the browser branch, from the
value `i` of the counter; the state is the buffer `result` and the requests made.
The first argument bounds the number of iterations. -/
def fillLoop (crypto : Entropy) (n : Nat) :
    Nat → Nat → ByteBuffer × List RngCall → ByteBuffer × List RngCall
  | 0, _, st => st
  | fuel + 1, i, st =>
    if i < n then
      let stop := i + min (n - i) QUOTA
      fillLoop crypto n fuel (i + QUOTA)
        (fillView st.1 i stop (crypto st.2.length), st.2 ++ [RngCall.getRandomValues i stop])
    else st

/-- The inner function `function(n)` of the browser branch: allocate `n` bytes, fill
them by the loop, blit them onto `buf`, return `true`. The loop runs at most `n`
times. -/
def browserFill (crypto : Entropy) (buf : Ref) (n : Nat) (w : World) : World × Bool :=
  let st := fillLoop crypto n n 0 (List.replicate n 0, w.rngCalls)
  ({ heap := (blit_buf_onto_MlBytes st.1 buf w.heap).1, rngCalls := st.2 }, true)

/-- The function `_1_Lib_RandomBuffer_System_randombytes`: the selected branch
function is applied to `buf`. The browser branch function takes no parameter and
returns the inner function without calling it; the Node branch function draws
`randomBytes(60)`, blits it onto `buf` and returns `true`. -/
def _1_Lib_RandomBuffer_System_randombytes (p : Platform) (buf : Ref) (w : World) :
    World × StubValue :=
  match p with
  | .browser crypto => (w, .closure (fun n w' => browserFill crypto buf n w'))
  | .node crypto =>
    let result : ByteBuffer := (List.range 60).map (crypto w.rngCalls.length)
    ({ heap := (blit_buf_onto_MlBytes result buf w.heap).1,
       rngCalls := w.rngCalls ++ [RngCall.randomBytes 60] }, .bool true)

/-! ## The dispatch entries that are not implemented (lines 81 to 109, 305 to 309) -/

/-- A JavaScript value a dispatch entry can hand back on its normal result channel. -/
inductive JsValue where
  | undefined
  | bool (b : Bool)
  | number (z : Int)
  | string (s : String)
  deriving DecidableEq, Repr

/-- The entry `Hacl_Hash_Core_SHA2_init_256`: a single `throw` statement. -/
def Hacl_Hash_Core_SHA2_init_256 (_state : Ref) : Except JsThrown JsValue :=
  .error (.thrownString " not implemented Hacl_Hash_Core_SHA2_init_256")

/-- The entry `Hacl_Hash_Core_SHA2_update_256`: a single `throw` statement. -/
def Hacl_Hash_Core_SHA2_update_256 (_state _bytes : Ref) : Except JsThrown JsValue :=
  .error (.thrownString " not implemented Hacl_Hash_Core_SHA2_update_256")

/-- The entry `Hacl_Hash_Core_SHA2_finish_256`: a single `throw` statement. -/
def Hacl_Hash_Core_SHA2_finish_256 (_state _hash : Ref) : Except JsThrown JsValue :=
  .error (.thrownString " not implemented Hacl_Hash_Core_SHA2_finish_256")

/-- The entry `Hacl_Hash_Core_SHA2_init_512`: a single `throw` statement. -/
def Hacl_Hash_Core_SHA2_init_512 (_state : Ref) : Except JsThrown JsValue :=
  .error (.thrownString " not implemented Hacl_Hash_Core_SHA2_init_512")

/-- The entry `Hacl_Hash_Core_SHA2_update_512`: a single `throw` statement. -/
def Hacl_Hash_Core_SHA2_update_512 (_state _bytes : Ref) : Except JsThrown JsValue :=
  .error (.thrownString " not implemented Hacl_Hash_Core_SHA2_update_512")

/-- The entry `Hacl_Hash_Core_SHA2_finish_512`: a single `throw` statement. -/
def Hacl_Hash_Core_SHA2_finish_512 (_state _hash : Ref) : Except JsThrown JsValue :=
  .error (.thrownString " not implemented Hacl_Hash_Core_SHA2_finish_512")

/-- The entry `Hacl_P256_ecdsa_sign_p256_without_hash`: the single statement
`assert.fail()`. The identifier `assert` is not provided by the file: when the
environment binds it to the Node assertion module the call throws an
`AssertionError`, and when it is unbound the evaluation of `assert` throws a
`ReferenceError`. -/
def Hacl_P256_ecdsa_sign_p256_without_hash (assertBound : Bool) (_args : List Ref) :
    Except JsThrown JsValue :=
  if assertBound then .error (.assertionError "Failed")
  else .error (.referenceError "assert is not defined")

/-! ## The NaCl dispatch stubs (lines 198 to 274) -/

/-- The functions of `_HACL.NaCl` the stubs call. Each returns an array whose slot 0
is a status number and whose next slots are output buffers. -/
structure NaCl where
  secretbox_easy : ByteBuffer → ByteBuffer → ByteBuffer → Int × ByteBuffer
  secretbox_open_easy : ByteBuffer → ByteBuffer → ByteBuffer → Int × ByteBuffer
  box_beforenm : ByteBuffer → ByteBuffer → Int × ByteBuffer
  box_easy_afternm : ByteBuffer → ByteBuffer → ByteBuffer → Int × ByteBuffer
  box_open_easy_afternm : ByteBuffer → ByteBuffer → ByteBuffer → Int × ByteBuffer
  box_detached_afternm : ByteBuffer → ByteBuffer → ByteBuffer → Int × ByteBuffer × ByteBuffer
  box_open_detached_afternm :
    ByteBuffer → ByteBuffer → ByteBuffer → ByteBuffer → Int × ByteBuffer

/-- The stub `Hacl_NaCl_crypto_secretbox_easy(c, m, n, k)`. -/
def Hacl_NaCl_crypto_secretbox_easy (lib : NaCl) (c m n k : Ref) (h : Heap) : Heap × Bool :=
  let bm := MlBytes2buf (h m)
  let bn := MlBytes2buf (h n)
  let bk := MlBytes2buf (h k)
  let bret := lib.secretbox_easy bm bn bk
  let h1 := (blit_buf_onto_MlBytes bret.2 c h).1
  (h1, decide (bret.1 = 0))

/-- The stub `Hacl_NaCl_crypto_secretbox_open_easy(m, c, n, k)`. -/
def Hacl_NaCl_crypto_secretbox_open_easy (lib : NaCl) (m c n k : Ref) (h : Heap) :
    Heap × Bool :=
  let bc := MlBytes2buf (h c)
  let bn := MlBytes2buf (h n)
  let bk := MlBytes2buf (h k)
  let bret := lib.secretbox_open_easy bc bn bk
  let h1 := (blit_buf_onto_MlBytes bret.2 m h).1
  (h1, decide (bret.1 = 0))

/-- The stub `Hacl_NaCl_crypto_box_beforenm(k, pk, sk)`. -/
def Hacl_NaCl_crypto_box_beforenm (lib : NaCl) (k pk sk : Ref) (h : Heap) : Heap × Bool :=
  let bpk := MlBytes2buf (h pk)
  let bsk := MlBytes2buf (h sk)
  let bret := lib.box_beforenm bpk bsk
  let h1 := (blit_buf_onto_MlBytes bret.2 k h).1
  (h1, decide (bret.1 = 0))

/-- The stub `Hacl_NaCl_crypto_box_easy_afternm(c, m, n, k)`. -/
def Hacl_NaCl_crypto_box_easy_afternm (lib : NaCl) (c m n k : Ref) (h : Heap) : Heap × Bool :=
  let bm := MlBytes2buf (h m)
  let bn := MlBytes2buf (h n)
  let bk := MlBytes2buf (h k)
  let bret := lib.box_easy_afternm bm bn bk
  let h1 := (blit_buf_onto_MlBytes bret.2 c h).1
  (h1, decide (bret.1 = 0))

/-- The stub `Hacl_NaCl_crypto_box_open_easy_afternm(m, c, n, k)`. -/
def Hacl_NaCl_crypto_box_open_easy_afternm (lib : NaCl) (m c n k : Ref) (h : Heap) :
    Heap × Bool :=
  let bc := MlBytes2buf (h c)
  let bn := MlBytes2buf (h n)
  let bk := MlBytes2buf (h k)
  let bret := lib.box_open_easy_afternm bc bn bk
  let h1 := (blit_buf_onto_MlBytes bret.2 m h).1
  (h1, decide (bret.1 = 0))

/-- The stub `Hacl_NaCl_crypto_box_detached_afternm(c, tag, m, n, k)`: slot 1 of
the library result goes to `c`, then slot 2 goes to `tag`. -/
def Hacl_NaCl_crypto_box_detached_afternm (lib : NaCl) (c tag m n k : Ref) (h : Heap) :
    Heap × Bool :=
  let bm := MlBytes2buf (h m)
  let bn := MlBytes2buf (h n)
  let bk := MlBytes2buf (h k)
  let bret := lib.box_detached_afternm bm bn bk
  let h1 := (blit_buf_onto_MlBytes bret.2.1 c h).1
  let h2 := (blit_buf_onto_MlBytes bret.2.2 tag h1).1
  (h2, decide (bret.1 = 0))

/-- The stub `Hacl_NaCl_crypto_box_open_detached_afternm(m, c, tag, n, k)`. -/
def Hacl_NaCl_crypto_box_open_detached_afternm (lib : NaCl) (m c tag n k : Ref) (h : Heap) :
    Heap × Bool :=
  let btag := MlBytes2buf (h tag)
  let bc := MlBytes2buf (h c)
  let bn := MlBytes2buf (h n)
  let bk := MlBytes2buf (h k)
  let bret := lib.box_open_detached_afternm bc btag bn bk
  let h1 := (blit_buf_onto_MlBytes bret.2 m h).1
  (h1, decide (bret.1 = 0))

/-! ## Specification-side definitions and sample inputs -/

/-- The successive pairs of code units of a string; a last unpaired code unit is
left out. -/
def pairsOf : JSString → List JSString
  | a :: b :: rest => [a, b] :: pairsOf rest
  | _ => []

/-- A sample library: sealing prepends the byte 42 and opening removes the first
byte; detached sealing adds 1 to every byte and gives the tag 42; the status of the
sealing calls and of the opening calls are parameters. -/
def sampleNaCl (sealStatus openStatus : Int) : NaCl where
  secretbox_easy := fun m _ _ => (sealStatus, 42 :: m)
  secretbox_open_easy := fun c _ _ => (openStatus, c.tail)
  box_beforenm := fun pk _ => (0, pk)
  box_easy_afternm := fun m _ _ => (sealStatus, 42 :: m)
  box_open_easy_afternm := fun c _ _ => (openStatus, c.tail)
  box_detached_afternm := fun m _ _ => (sealStatus, m.map (fun x => x + 1), [42])
  box_open_detached_afternm := fun c _ _ _ => (openStatus, c)

/-- A sample heap: object 0 holds three bytes, object 1 two bytes, object 2 a
one-byte nonce, object 3 a one-byte key, object 4 two bytes, object 5 one byte;
every other object is empty. -/
def sampleHeap : Heap := fun r =>
  match r with
  | 0 => [9, 9, 9]
  | 1 => [5, 6]
  | 2 => [1]
  | 3 => [2]
  | 4 => [7, 8]
  | 5 => [3]
  | _ => []

/-- A sample world: the heap in which the object 0 holds 64 zero bytes (every other
object is empty), and no request made yet. -/
def sampleWorld : World where
  heap := fun r => if r = 0 then List.replicate 64 0 else []
  rngCalls := []

/-- A sample random source that delivers the byte 255 everywhere. -/
def sampleEntropy : Entropy := fun _ _ => 255

/-- The sub-ranges the claim on the browser loop describes for a request of `n`
bytes: one per multiple `i` of 65536 below `n`, from `i` to `i + min (n - i) 65536`. -/
def quotaRanges (n : Nat) : List (Nat × Nat) :=
  (List.range ((n + 65535) / 65536)).map
    (fun j => (65536 * j, 65536 * j + min (n - 65536 * j) 65536))

/-! ## Lemmas -/


/-! ### The byte-buffer adapters -/

theorem blitFrom_length (buf : ByteBuffer) : ∀ (i : Nat) (d : MlBytes),
    (blitFrom i buf d).length = d.length := by
  induction buf with
  | nil => intro i d; rfl
  | cons x xs ih =>
    intro i d
    rw [blitFrom, ih, caml_string_unsafe_set, List.length_set]

theorem blitFrom_getElem? (buf : ByteBuffer) : ∀ (i : Nat) (d : MlBytes) (j : Nat),
    (blitFrom i buf d)[j]? =
      if i ≤ j ∧ j < i + buf.length ∧ j < d.length then buf[j - i]? else d[j]? := by
  induction buf with
  | nil =>
    intro i d j
    simp only [blitFrom, List.length_nil, Nat.add_zero]
    rw [if_neg]
    omega
  | cons x xs ih =>
    intro i d j
    rw [blitFrom, ih, caml_string_unsafe_set, List.length_set, List.getElem?_set]
    by_cases hij : i = j
    · subst hij
      by_cases hd : i < d.length
      · simp [hd]
      · simp [hd]
        omega
    · by_cases h1 : i + 1 ≤ j
      · have e : j - i = (j - (i + 1)) + 1 := by omega
        have h2 : i ≤ j := by omega
        by_cases h3 : j < d.length
        · by_cases h4 : j < i + 1 + xs.length
          · have h5 : j < i + (xs.length + 1) := by omega
            simp [h1, h2, h3, h4, h5, hij, e]
          · have h5 : ¬ j < i + (xs.length + 1) := by omega
            simp [h1, h2, h3, h4, h5, hij]
        · simp [h3, hij]
      · have h2 : ¬ i ≤ j := by omega
        simp [h1, h2, hij]

theorem blitFrom_zero_of_le (buf : ByteBuffer) (d : MlBytes) (hle : buf.length ≤ d.length) :
    blitFrom 0 buf d = buf ++ d.drop buf.length := by
  apply List.ext_getElem?
  intro j
  rw [blitFrom_getElem?]
  by_cases hj : j < buf.length
  · have : j < d.length := by omega
    simp [hj, this, List.getElem?_append_left]
  · have hj2 : buf.length ≤ j := by omega
    rw [List.getElem?_append_right hj2, List.getElem?_drop]
    simp [hj]
    congr 1; omega

theorem blitFrom_zero_of_eq (buf : ByteBuffer) (d : MlBytes) (h : buf.length = d.length) :
    blitFrom 0 buf d = buf := by
  rw [blitFrom_zero_of_le buf d (by omega), h]; simp

theorem foldl_set_get (s : MlBytes) (k : Nat) : ∀ (init : ByteBuffer),
    ((List.range k).foldl (fun buf i => buf.set i (caml_bytes_unsafe_get s i)) init).length
        = init.length ∧
    ∀ j, ((List.range k).foldl (fun buf i => buf.set i (caml_bytes_unsafe_get s i)) init)[j]? =
      if j < k ∧ j < init.length then some (s.getD j 0) else init[j]? := by
  induction k with
  | zero => intro init; simp
  | succ k ih =>
    intro init
    rw [List.range_succ, List.foldl_append]
    simp only [List.foldl_cons, List.foldl_nil, List.length_set]
    refine ⟨(ih init).1, fun j => ?_⟩
    rw [List.getElem?_set, (ih init).1, (ih init).2]
    by_cases hkj : k = j
    · subst hkj
      by_cases hl : k < init.length
      · simp [hl, caml_bytes_unsafe_get]
      · simp [hl]
        omega
    · by_cases hj : j < k
      · have : j < k + 1 := by omega
        simp [hkj, hj, this]
      · have : ¬ j < k + 1 := by omega
        simp [hkj, hj, this]

theorem MlBytes2buf_eq (s : MlBytes) : MlBytes2buf s = s := by
  apply List.ext_getElem?
  intro j
  unfold MlBytes2buf
  rw [(foldl_set_get s s.length _).2]
  by_cases hj : j < s.length
  · simp [hj, List.getD_eq_getElem?_getD, List.getElem?_eq_getElem hj]
  · have hge : s.length ≤ j := Nat.le_of_not_lt hj
    rw [if_neg (by omega)]
    simp [List.getElem?_eq_none, hge]

/-! ### The hex codec -/

theorem hexPair_shape (x : Byte) :
    ∃ a b, hexPair x = [a, b] ∧ isLineTerminator a = false ∧ isLineTerminator b = false ∧
      toUint8 (parseInt16 [a, b]) = x := by
  have key : ∀ y : Fin 256,
      (hexPair y).length = 2 ∧ (hexPair y).all (fun c => !isLineTerminator c) = true ∧
        toUint8 (parseInt16 (hexPair y)) = y := by decide
  obtain ⟨hl, hall, hv⟩ := key x
  match hp : hexPair x, hl with
  | [a, b], _ =>
    rw [hp] at hall hv
    simp only [List.all_cons, List.all_nil, Bool.and_true, Bool.and_eq_true,
      Bool.not_eq_true'] at hall
    exact ⟨a, b, rfl, hall.1, hall.2, hv⟩

theorem buf2hex_cons (x : Byte) (xs : ByteBuffer) :
    buf2hex (x :: xs) = hexPair x ++ buf2hex xs := rfl

theorem matchPairs_buf2hex (b : ByteBuffer) : matchPairs (buf2hex b) = b.map hexPair := by
  induction b with
  | nil => rfl
  | cons x xs ih =>
    obtain ⟨a, c, hp, ha, hc, -⟩ := hexPair_shape x
    rw [buf2hex_cons, List.map_cons, hp]
    show matchPairs (a :: c :: buf2hex xs) = _
    rw [matchPairs, ha, hc, ih]
    rfl

theorem toUint8_hexPair (x : Byte) : toUint8 (parseInt16 (hexPair x)) = x := by
  obtain ⟨a, c, hp, -, -, hv⟩ := hexPair_shape x
  rw [hp]; exact hv

/-- C1: for every byte buffer, the empty one included, `hex2buf (buf2hex b)` returns
normally a buffer with the same bytes in the same order (hence the same length). -/
theorem hex2buf_buf2hex (b : ByteBuffer) : hex2buf (buf2hex b) = .ok b := by
  cases b with
  | nil => rfl
  | cons x xs =>
    obtain ⟨a, c, hp, -, -, -⟩ := hexPair_shape x
    have hne : buf2hex (x :: xs) ≠ [] := by
      rw [buf2hex_cons, hp]; simp
    have hm : matchAllPairs (buf2hex (x :: xs)) = some ((x :: xs).map hexPair) := by
      unfold matchAllPairs
      rw [matchPairs_buf2hex]; rfl
    unfold hex2buf
    rw [if_neg hne, hm]
    simp only [List.map_map]
    congr 1
    conv_rhs => rw [← List.map_id (x :: xs)]
    apply List.map_congr_left
    intro y _
    exact toUint8_hexPair y

theorem matchPairs_eq_pairsOf : ∀ (s : JSString),
    (∀ c ∈ s, isLineTerminator c = false) → matchPairs s = pairsOf s
  | [], _ => rfl
  | [_], _ => rfl
  | a :: b :: rest, h => by
    have ha : isLineTerminator a = false := h a (by simp)
    have hb : isLineTerminator b = false := h b (by simp)
    have hr : ∀ c ∈ rest, isLineTerminator c = false := fun c hc => h c (by simp [hc])
    rw [matchPairs, ha, hb, matchPairs_eq_pairsOf rest hr]
    rfl

theorem pairsOf_length : ∀ (s : JSString), (pairsOf s).length = s.length / 2
  | [] => rfl
  | [_] => by simp [pairsOf]
  | a :: b :: rest => by
    rw [pairsOf, List.length_cons, pairsOf_length rest]
    simp only [List.length_cons]
    omega

/-- C5, refutation: the three-code-unit string "abc" has odd length and the string
"zz" holds no hexadecimal digit, yet `hex2buf` returns a buffer on both: the last
code unit of "abc" is dropped and the pair "zz" becomes the byte 0. -/
theorem hex2buf_accepts_malformed :
    (js "abc").length % 2 = 1 ∧ hex2buf (js "abc") = .ok [171] ∧
    (∀ c ∈ js "zz", hexDigitValue c = none) ∧ hex2buf (js "zz") = .ok [0] := by
  decide

/-- C5, amended: `hex2buf` has no malformed-input check. On every string of at least
two code units without line terminator, of odd length or with code units that are
not hexadecimal digits included, it returns normally a buffer of half the length
(rounded down): one byte per successive pair of code units, read by `parseInt` in
radix 16 and stored as a `Uint8` (so `NaN` is stored as 0), a last unpaired code
unit being dropped. -/
theorem hex2buf_no_validation (s : JSString) (hlen : 2 ≤ s.length)
    (hlt : ∀ c ∈ s, isLineTerminator c = false) :
    hex2buf s = .ok ((pairsOf s).map (fun byte => toUint8 (parseInt16 byte))) ∧
    ((pairsOf s).map (fun byte => toUint8 (parseInt16 byte))).length = s.length / 2 := by
  refine ⟨?_, by rw [List.length_map, pairsOf_length]⟩
  match s, hlen, hlt with
  | a :: b :: rest, _, hlt =>
    have hm : matchPairs (a :: b :: rest) = pairsOf (a :: b :: rest) :=
      matchPairs_eq_pairsOf _ hlt
    unfold hex2buf matchAllPairs
    rw [if_neg (by simp), hm]
    rfl

theorem hex2buf_no_validation_witness :
    2 ≤ (js "7g1").length ∧ (∀ c ∈ js "7g1", isLineTerminator c = false) ∧
    hex2buf (js "7g1") = .ok ((pairsOf (js "7g1")).map (fun byte => toUint8 (parseInt16 byte))) ∧
    ((pairsOf (js "7g1")).map (fun byte => toUint8 (parseInt16 byte))).length
      = (js "7g1").length / 2 :=
  ⟨by decide, by decide, hex2buf_no_validation (js "7g1") (by decide) (by decide)⟩

/-! ### The blit -/

/-- C4, refutation: a one-byte buffer blitted onto the three-byte object 0 of the
sample heap: the lengths differ, the call returns 0 and the first byte of the
destination has been overwritten. -/
theorem blit_length_mismatch_writes :
    ([1] : ByteBuffer).length ≠ (sampleHeap 0).length ∧
    (blit_buf_onto_MlBytes [1] 0 sampleHeap).2 = 0 ∧
    (blit_buf_onto_MlBytes [1] 0 sampleHeap).1 0 = [1, 9, 9] ∧
    (blit_buf_onto_MlBytes [1] 0 sampleHeap).1 0 ≠ sampleHeap 0 := by
  decide

/-- C4, amended: `blit_buf_onto_MlBytes` has no length test and never fails. For every
buffer no longer than the destination it returns 0 after storing each byte of the
buffer at its own index: the destination starts with the bytes of the buffer and
keeps its remaining bytes, no other object changes, and when the lengths are equal
the destination holds exactly the bytes of the buffer. -/
theorem blit_buf_onto_MlBytes_positional (buf : ByteBuffer) (dst : Ref) (h : Heap)
    (hle : buf.length ≤ (h dst).length) :
    (blit_buf_onto_MlBytes buf dst h).2 = 0 ∧
    (blit_buf_onto_MlBytes buf dst h).1 dst = buf ++ (h dst).drop buf.length ∧
    (buf.length = (h dst).length → (blit_buf_onto_MlBytes buf dst h).1 dst = buf) ∧
    (∀ r, r ≠ dst → (blit_buf_onto_MlBytes buf dst h).1 r = h r) := by
  refine ⟨rfl, ?_, ?_, ?_⟩
  · simp only [blit_buf_onto_MlBytes, Heap.write, if_true]
    exact blitFrom_zero_of_le buf (h dst) hle
  · intro heq
    simp only [blit_buf_onto_MlBytes, Heap.write, if_true]
    exact blitFrom_zero_of_eq buf (h dst) heq
  · intro r hr
    simp only [blit_buf_onto_MlBytes, Heap.write, if_neg hr]

theorem blit_buf_onto_MlBytes_positional_witness :
    ([1, 2] : ByteBuffer).length ≤ (sampleHeap 1).length ∧
    (blit_buf_onto_MlBytes [1, 2] 1 sampleHeap).2 = 0 ∧
    (blit_buf_onto_MlBytes [1, 2] 1 sampleHeap).1 1 = [1, 2] ++ (sampleHeap 1).drop 2 ∧
    (([1, 2] : ByteBuffer).length = (sampleHeap 1).length →
      (blit_buf_onto_MlBytes [1, 2] 1 sampleHeap).1 1 = [1, 2]) ∧
    (∀ r, r ≠ 1 → (blit_buf_onto_MlBytes [1, 2] 1 sampleHeap).1 r = sampleHeap r) :=
  ⟨by decide, blit_buf_onto_MlBytes_positional [1, 2] 1 sampleHeap (by decide)⟩

/-! ### The entries that are not implemented -/

/-- C9, refutation: called on the object 0, `Hacl_Hash_Core_SHA2_init_256` throws a
string; nothing comes back on the normal result channel. -/
theorem not_implemented_entry_throws :
    Hacl_Hash_Core_SHA2_init_256 0
        = .error (.thrownString " not implemented Hacl_Hash_Core_SHA2_init_256") ∧
    ¬ ∃ v, Hacl_Hash_Core_SHA2_init_256 0 = .ok v := by
  refine ⟨rfl, ?_⟩
  rintro ⟨v, hv⟩
  cases hv

/-- C9, amended: for every argument list, each entry that is not implemented raises
an exception and hands nothing back on its normal result channel: each of the six
SHA-2 core entries throws the string naming it (six distinct strings), and
`Hacl_P256_ecdsa_sign_p256_without_hash` throws from `assert.fail()`. -/
theorem not_implemented_entries_throw (state bytes hash : Ref) (assertBound : Bool)
    (args : List Ref) :
    Hacl_Hash_Core_SHA2_init_256 state
      = .error (.thrownString " not implemented Hacl_Hash_Core_SHA2_init_256") ∧
    Hacl_Hash_Core_SHA2_update_256 state bytes
      = .error (.thrownString " not implemented Hacl_Hash_Core_SHA2_update_256") ∧
    Hacl_Hash_Core_SHA2_finish_256 state hash
      = .error (.thrownString " not implemented Hacl_Hash_Core_SHA2_finish_256") ∧
    Hacl_Hash_Core_SHA2_init_512 state
      = .error (.thrownString " not implemented Hacl_Hash_Core_SHA2_init_512") ∧
    Hacl_Hash_Core_SHA2_update_512 state bytes
      = .error (.thrownString " not implemented Hacl_Hash_Core_SHA2_update_512") ∧
    Hacl_Hash_Core_SHA2_finish_512 state hash
      = .error (.thrownString " not implemented Hacl_Hash_Core_SHA2_finish_512") ∧
    (∃ e, Hacl_P256_ecdsa_sign_p256_without_hash assertBound args = .error e) := by
  refine ⟨rfl, rfl, rfl, rfl, rfl, rfl, ?_⟩
  cases assertBound
  · exact ⟨_, rfl⟩
  · exact ⟨_, rfl⟩

/-! ### The NaCl stubs -/

theorem blit_heap_dst (buf : ByteBuffer) (dst : Ref) (h : Heap) :
    (blit_buf_onto_MlBytes buf dst h).1 dst = blitFrom 0 buf (h dst) := by
  simp only [blit_buf_onto_MlBytes, Heap.write, if_true]

theorem blit_heap_other (buf : ByteBuffer) (dst r : Ref) (h : Heap) (hr : r ≠ dst) :
    (blit_buf_onto_MlBytes buf dst h).1 r = h r := by
  simp only [blit_buf_onto_MlBytes, Heap.write, if_neg hr]

theorem blit_heap_length (buf : ByteBuffer) (dst r : Ref) (h : Heap) :
    ((blit_buf_onto_MlBytes buf dst h).1 r).length = (h r).length := by
  by_cases hr : r = dst
  · subst hr
    rw [blit_heap_dst, blitFrom_length]
  · rw [blit_heap_other buf dst r h hr]

theorem blit_heap_dst_of_eq (buf : ByteBuffer) (dst : Ref) (h : Heap)
    (hl : (h dst).length = buf.length) :
    (blit_buf_onto_MlBytes buf dst h).1 dst = buf := by
  rw [blit_heap_dst, blitFrom_zero_of_eq buf (h dst) hl.symm]

/-- C3, refutation: the library reports status 1 and places the bytes 6 (the tail of
the ciphertext 5, 6) in its output slot; `Hacl_NaCl_crypto_secretbox_open_easy`
returns `false`, and the one-byte destination 5, which held 3, now holds 6: it is
neither what it was nor all zero. -/
theorem open_failure_overwrites_destination :
    ((sampleNaCl 0 1).secretbox_open_easy (MlBytes2buf (sampleHeap 1))
        (MlBytes2buf (sampleHeap 2)) (MlBytes2buf (sampleHeap 3))).1 ≠ 0 ∧
    (Hacl_NaCl_crypto_secretbox_open_easy (sampleNaCl 0 1) 5 1 2 3 sampleHeap).2 = false ∧
    (Hacl_NaCl_crypto_secretbox_open_easy (sampleNaCl 0 1) 5 1 2 3 sampleHeap).1 5 = [6] ∧
    ¬ ((Hacl_NaCl_crypto_secretbox_open_easy (sampleNaCl 0 1) 5 1 2 3 sampleHeap).1 5
          = sampleHeap 5 ∨
       ∀ x ∈ (Hacl_NaCl_crypto_secretbox_open_easy (sampleNaCl 0 1) 5 1 2 3 sampleHeap).1 5,
          x = 0) := by
  decide

/-- C3, amended: for each of the three authenticated-decryption stubs and every input,
whenever the library reports a non-zero status the stub returns `false`, whatever
the lengths are, and the blit is still made: a destination `m` that has the length
of the library output ends up holding exactly the bytes the library placed in its
output slot. -/
theorem open_stubs_blit_on_failure (lib : NaCl) (m c tag n k : Ref) (h : Heap) :
    (∀ s out, lib.secretbox_open_easy (MlBytes2buf (h c)) (MlBytes2buf (h n))
          (MlBytes2buf (h k)) = (s, out) → s ≠ 0 →
        (Hacl_NaCl_crypto_secretbox_open_easy lib m c n k h).2 = false ∧
        ((h m).length = out.length →
          (Hacl_NaCl_crypto_secretbox_open_easy lib m c n k h).1 m = out)) ∧
    (∀ s out, lib.box_open_easy_afternm (MlBytes2buf (h c)) (MlBytes2buf (h n))
          (MlBytes2buf (h k)) = (s, out) → s ≠ 0 →
        (Hacl_NaCl_crypto_box_open_easy_afternm lib m c n k h).2 = false ∧
        ((h m).length = out.length →
          (Hacl_NaCl_crypto_box_open_easy_afternm lib m c n k h).1 m = out)) ∧
    (∀ s out, lib.box_open_detached_afternm (MlBytes2buf (h c)) (MlBytes2buf (h tag))
          (MlBytes2buf (h n)) (MlBytes2buf (h k)) = (s, out) → s ≠ 0 →
        (Hacl_NaCl_crypto_box_open_detached_afternm lib m c tag n k h).2 = false ∧
        ((h m).length = out.length →
          (Hacl_NaCl_crypto_box_open_detached_afternm lib m c tag n k h).1 m = out)) := by
  refine ⟨?_, ?_, ?_⟩
  · intro s out hlib hs
    simp only [Hacl_NaCl_crypto_secretbox_open_easy, hlib]
    exact ⟨by simpa using hs, fun hl => blit_heap_dst_of_eq out m h hl⟩
  · intro s out hlib hs
    simp only [Hacl_NaCl_crypto_box_open_easy_afternm, hlib]
    exact ⟨by simpa using hs, fun hl => blit_heap_dst_of_eq out m h hl⟩
  · intro s out hlib hs
    simp only [Hacl_NaCl_crypto_box_open_detached_afternm, hlib]
    exact ⟨by simpa using hs, fun hl => blit_heap_dst_of_eq out m h hl⟩

theorem open_stubs_blit_on_failure_witness :
    ((Hacl_NaCl_crypto_secretbox_open_easy (sampleNaCl 0 1) 5 1 2 3 sampleHeap).2 = false ∧
      (Hacl_NaCl_crypto_secretbox_open_easy (sampleNaCl 0 1) 5 1 2 3 sampleHeap).1 5 = [6]) ∧
    ((Hacl_NaCl_crypto_box_open_easy_afternm (sampleNaCl 0 1) 5 1 2 3 sampleHeap).2 = false ∧
      (Hacl_NaCl_crypto_box_open_easy_afternm (sampleNaCl 0 1) 5 1 2 3 sampleHeap).1 5 = [6]) ∧
    ((Hacl_NaCl_crypto_box_open_detached_afternm (sampleNaCl 0 1) 4 1 5 2 3 sampleHeap).2
        = false ∧
      (Hacl_NaCl_crypto_box_open_detached_afternm (sampleNaCl 0 1) 4 1 5 2 3 sampleHeap).1 4
        = [5, 6]) ∧
    (sampleHeap 0).length ≠ ([6] : ByteBuffer).length ∧
    (Hacl_NaCl_crypto_secretbox_open_easy (sampleNaCl 0 1) 0 1 2 3 sampleHeap).2 = false := by
  have t1 := (open_stubs_blit_on_failure (sampleNaCl 0 1) 5 1 5 2 3 sampleHeap).1 1 [6]
    (by decide) (by decide)
  have t2 := (open_stubs_blit_on_failure (sampleNaCl 0 1) 5 1 5 2 3 sampleHeap).2.1 1 [6]
    (by decide) (by decide)
  have t3 := (open_stubs_blit_on_failure (sampleNaCl 0 1) 4 1 5 2 3 sampleHeap).2.2 1 [5, 6]
    (by decide) (by decide)
  have t4 := (open_stubs_blit_on_failure (sampleNaCl 0 1) 0 1 5 2 3 sampleHeap).1 1 [6]
    (by decide) (by decide)
  exact ⟨⟨t1.1, t1.2 (by decide)⟩, ⟨t2.1, t2.2 (by decide)⟩, ⟨t3.1, t3.2 (by decide)⟩,
    by decide, t4.1⟩

/-- C10, refutation: the message and the ciphertext destination are the same object 1,
the tag destination is the object 5. The destinations are distinct and have the
lengths of the two library outputs, yet after the call the input `m` no longer
holds its bytes 5, 6: it holds the ciphertext 6, 7. -/
theorem box_detached_afternm_aliased_input :
    (sampleNaCl 0 0).box_detached_afternm (MlBytes2buf (sampleHeap 1))
        (MlBytes2buf (sampleHeap 2)) (MlBytes2buf (sampleHeap 3)) = (0, [6, 7], [42]) ∧
    (1 : Ref) ≠ 5 ∧ (sampleHeap 1).length = ([6, 7] : ByteBuffer).length ∧
    (sampleHeap 5).length = ([42] : ByteBuffer).length ∧
    sampleHeap 1 = [5, 6] ∧
    (Hacl_NaCl_crypto_box_detached_afternm (sampleNaCl 0 0) 1 5 1 2 3 sampleHeap).1 1
      = [6, 7] ∧
    (Hacl_NaCl_crypto_box_detached_afternm (sampleNaCl 0 0) 1 5 1 2 3 sampleHeap).1 1
      ≠ sampleHeap 1 := by
  decide

/-- C10, amended: let the inputs `m`, `n` and `k` be stored apart from the destinations
`c` and `tag`. If the library, applied to the byte copies of `m`, `n` and `k`, returns
the tuple `(s, c', t')`, and the destinations `c` and `tag` are distinct objects that
have the lengths of `c'` and `t'`, then after `Hacl_NaCl_crypto_box_detached_afternm`
the object `c` holds exactly `c'`, the object `tag` holds exactly `t'`, the inputs
`m`, `n` and `k` are unchanged, and the result is `true` exactly when `s` is 0. -/
theorem box_detached_afternm_outputs (lib : NaCl) (c tag m n k : Ref) (h : Heap)
    (s : Int) (c' t' : ByteBuffer)
    (hlib : lib.box_detached_afternm (MlBytes2buf (h m)) (MlBytes2buf (h n))
      (MlBytes2buf (h k)) = (s, c', t'))
    (hdist : c ≠ tag) (hlc : (h c).length = c'.length) (hlt : (h tag).length = t'.length)
    (hm : m ≠ c ∧ m ≠ tag) (hn : n ≠ c ∧ n ≠ tag) (hk : k ≠ c ∧ k ≠ tag) :
    (Hacl_NaCl_crypto_box_detached_afternm lib c tag m n k h).1 c = c' ∧
    (Hacl_NaCl_crypto_box_detached_afternm lib c tag m n k h).1 tag = t' ∧
    (Hacl_NaCl_crypto_box_detached_afternm lib c tag m n k h).1 m = h m ∧
    (Hacl_NaCl_crypto_box_detached_afternm lib c tag m n k h).1 n = h n ∧
    (Hacl_NaCl_crypto_box_detached_afternm lib c tag m n k h).1 k = h k ∧
    ((Hacl_NaCl_crypto_box_detached_afternm lib c tag m n k h).2 = true ↔ s = 0) := by
  simp only [Hacl_NaCl_crypto_box_detached_afternm, hlib]
  refine ⟨?_, ?_, ?_, ?_, ?_, ?_⟩
  · rw [blit_heap_other _ _ _ _ hdist]
    exact blit_heap_dst_of_eq c' c h hlc
  · apply blit_heap_dst_of_eq
    rw [blit_heap_other _ _ _ _ (Ne.symm hdist)]
    exact hlt
  · rw [blit_heap_other _ _ _ _ hm.2, blit_heap_other _ _ _ _ hm.1]
  · rw [blit_heap_other _ _ _ _ hn.2, blit_heap_other _ _ _ _ hn.1]
  · rw [blit_heap_other _ _ _ _ hk.2, blit_heap_other _ _ _ _ hk.1]
  · simp

theorem box_detached_afternm_outputs_witness :
    (4 : Ref) ≠ 5 ∧ (sampleHeap 4).length = ([6, 7] : ByteBuffer).length ∧
    (sampleHeap 5).length = ([42] : ByteBuffer).length ∧
    (Hacl_NaCl_crypto_box_detached_afternm (sampleNaCl 0 0) 4 5 1 2 3 sampleHeap).1 4
      = [6, 7] ∧
    (Hacl_NaCl_crypto_box_detached_afternm (sampleNaCl 0 0) 4 5 1 2 3 sampleHeap).1 5 = [42] ∧
    (Hacl_NaCl_crypto_box_detached_afternm (sampleNaCl 0 0) 4 5 1 2 3 sampleHeap).1 1
      = sampleHeap 1 ∧
    (Hacl_NaCl_crypto_box_detached_afternm (sampleNaCl 0 0) 4 5 1 2 3 sampleHeap).1 2
      = sampleHeap 2 ∧
    (Hacl_NaCl_crypto_box_detached_afternm (sampleNaCl 0 0) 4 5 1 2 3 sampleHeap).1 3
      = sampleHeap 3 ∧
    ((Hacl_NaCl_crypto_box_detached_afternm (sampleNaCl 0 0) 4 5 1 2 3 sampleHeap).2 = true
      ↔ (0 : Int) = 0) :=
  ⟨by decide, by decide, by decide,
    box_detached_afternm_outputs (sampleNaCl 0 0) 4 5 1 2 3 sampleHeap 0 [6, 7] [42]
      (by decide) (by decide) (by decide) (by decide) (by decide) (by decide) (by decide)⟩

/-- C2, refutation: with the sample library whose sealing reports status 1, opening
the ciphertext produced by sealing (same nonce and key) returns status 0 and the
original message, and the destinations 0 and 4 have the lengths of the ciphertext
and of the plaintext; yet `Hacl_NaCl_crypto_secretbox_easy` returns `false`. -/
theorem secretbox_easy_relays_seal_status :
    (sampleNaCl 1 0).secretbox_open_easy
        ((sampleNaCl 1 0).secretbox_easy (MlBytes2buf (sampleHeap 1))
          (MlBytes2buf (sampleHeap 2)) (MlBytes2buf (sampleHeap 3))).2
        (MlBytes2buf (sampleHeap 2)) (MlBytes2buf (sampleHeap 3)) = (0, sampleHeap 1) ∧
    (sampleHeap 0).length =
      ((sampleNaCl 1 0).secretbox_easy (MlBytes2buf (sampleHeap 1))
        (MlBytes2buf (sampleHeap 2)) (MlBytes2buf (sampleHeap 3))).2.length ∧
    (sampleHeap 4).length = (sampleHeap 1).length ∧
    (Hacl_NaCl_crypto_secretbox_easy (sampleNaCl 1 0) 0 1 2 3 sampleHeap).2 = false ∧
    (Hacl_NaCl_crypto_secretbox_open_easy (sampleNaCl 1 0) 4 0 2 3
      (Hacl_NaCl_crypto_secretbox_easy (sampleNaCl 1 0) 0 1 2 3 sampleHeap).1).2 = true := by
  decide

/-- C2, amended: let the key `k` and the nonce `n` be stored apart from the destination
`c`. Assume that the library `secretbox_easy`, on the byte copies of the message, the
nonce and the key, reports status 0 with a ciphertext `ct`, that `secretbox_open_easy`
on `ct` with the same nonce and key returns status 0 and the original message, and
that `c` and `m` have the lengths of `ct` and of the message. Then
`Hacl_NaCl_crypto_secretbox_easy(c, msg, n, k)` followed by
`Hacl_NaCl_crypto_secretbox_open_easy(m, c, n, k)` returns `true` both times and
leaves `m` holding exactly the bytes of the message. -/
theorem secretbox_round_trip (lib : NaCl) (c msg n k m : Ref) (h : Heap) (ct : ByteBuffer)
    (hseal : lib.secretbox_easy (MlBytes2buf (h msg)) (MlBytes2buf (h n))
      (MlBytes2buf (h k)) = (0, ct))
    (hopen : lib.secretbox_open_easy ct (MlBytes2buf (h n)) (MlBytes2buf (h k))
      = (0, h msg))
    (hcn : n ≠ c) (hck : k ≠ c)
    (hlc : (h c).length = ct.length) (hlm : (h m).length = (h msg).length) :
    (Hacl_NaCl_crypto_secretbox_easy lib c msg n k h).2 = true ∧
    (Hacl_NaCl_crypto_secretbox_open_easy lib m c n k
      (Hacl_NaCl_crypto_secretbox_easy lib c msg n k h).1).2 = true ∧
    (Hacl_NaCl_crypto_secretbox_open_easy lib m c n k
      (Hacl_NaCl_crypto_secretbox_easy lib c msg n k h).1).1 m = h msg := by
  have h1 : Hacl_NaCl_crypto_secretbox_easy lib c msg n k h
      = ((blit_buf_onto_MlBytes ct c h).1, true) := by
    simp only [Hacl_NaCl_crypto_secretbox_easy, hseal, decide_True]
  have hc : (blit_buf_onto_MlBytes ct c h).1 c = ct := blit_heap_dst_of_eq ct c h hlc
  have hn : (blit_buf_onto_MlBytes ct c h).1 n = h n := blit_heap_other ct c n h hcn
  have hk : (blit_buf_onto_MlBytes ct c h).1 k = h k := blit_heap_other ct c k h hck
  have hm : ((blit_buf_onto_MlBytes ct c h).1 m).length = (h msg).length := by
    rw [blit_heap_length, hlm]
  rw [h1]
  simp only [Hacl_NaCl_crypto_secretbox_open_easy, hc, hn, hk, MlBytes2buf_eq] at *
  rw [hopen]
  exact ⟨trivial, by simp, blit_heap_dst_of_eq _ _ _ hm⟩

theorem secretbox_round_trip_witness :
    (2 : Ref) ≠ 0 ∧ (3 : Ref) ≠ 0 ∧
    (Hacl_NaCl_crypto_secretbox_easy (sampleNaCl 0 0) 0 1 2 3 sampleHeap).2 = true ∧
    (Hacl_NaCl_crypto_secretbox_open_easy (sampleNaCl 0 0) 4 0 2 3
      (Hacl_NaCl_crypto_secretbox_easy (sampleNaCl 0 0) 0 1 2 3 sampleHeap).1).2 = true ∧
    (Hacl_NaCl_crypto_secretbox_open_easy (sampleNaCl 0 0) 4 0 2 3
      (Hacl_NaCl_crypto_secretbox_easy (sampleNaCl 0 0) 0 1 2 3 sampleHeap).1).1 4
      = sampleHeap 1 :=
  ⟨by decide, by decide,
    secretbox_round_trip (sampleNaCl 0 0) 0 1 2 3 4 sampleHeap [42, 5, 6]
      (by decide) (by decide) (by decide) (by decide) (by decide) (by decide)⟩

/-! ### The random source -/

/-- C7, failing input evaluated: on the browser branch, for every destination and
every state, the stub returns the inner function object, not the boolean `true`;
the heap is unchanged (the destination is not populated) and no request has been
made to `getRandomValues`. -/
theorem browser_branch_returns_closure (crypto : Entropy) (buf : Ref) (w : World) :
    (∃ f, (_1_Lib_RandomBuffer_System_randombytes (.browser crypto) buf w).2
        = StubValue.closure f) ∧
    (_1_Lib_RandomBuffer_System_randombytes (.browser crypto) buf w).2 ≠ StubValue.bool true ∧
    (_1_Lib_RandomBuffer_System_randombytes (.browser crypto) buf w).1.heap = w.heap ∧
    (_1_Lib_RandomBuffer_System_randombytes (.browser crypto) buf w).1.rngCalls
      = w.rngCalls := by
  refine ⟨⟨_, rfl⟩, ?_, rfl, rfl⟩
  intro hv
  simp only [_1_Lib_RandomBuffer_System_randombytes] at hv
  cases hv

theorem node_branch_request (crypto : Entropy) (buf : Ref) (w : World) :
    (_1_Lib_RandomBuffer_System_randombytes (.node crypto) buf w).1.rngCalls
      = w.rngCalls ++ [RngCall.randomBytes 60] := rfl

/-- C6, failing input evaluated: on the Node branch with a 64-byte destination, the
stub requests 60 bytes (not 64), writes them at the positions 0 to 59 and leaves
the positions 60 to 63 as they were, then returns `true`. -/
theorem node_branch_draws_sixty :
    (sampleWorld.heap 0).length = 64 ∧
    (_1_Lib_RandomBuffer_System_randombytes (.node sampleEntropy) 0 sampleWorld).1.rngCalls
      = [RngCall.randomBytes 60] ∧
    (_1_Lib_RandomBuffer_System_randombytes (.node sampleEntropy) 0 sampleWorld).1.heap 0
      = List.replicate 60 255 ++ List.replicate 4 0 ∧
    (_1_Lib_RandomBuffer_System_randombytes (.node sampleEntropy) 0 sampleWorld).2
      = StubValue.bool true := by
  refine ⟨by decide, by decide, by decide, rfl⟩

theorem fillLoop_calls (crypto : Entropy) (n : Nat) :
    ∀ (fuel j : Nat) (st : ByteBuffer × List RngCall),
      (n + 65535) / 65536 - j ≤ fuel →
      (fillLoop crypto n fuel (65536 * j) st).2 =
        st.2 ++ (List.range' j ((n + 65535) / 65536 - j)).map
          (fun t => RngCall.getRandomValues (65536 * t)
            (65536 * t + min (n - 65536 * t) 65536)) := by
  intro fuel
  induction fuel with
  | zero =>
    intro j st hf
    have h0 : (n + 65535) / 65536 - j = 0 := by omega
    simp [fillLoop, h0]
  | succ fuel ih =>
    intro j st hf
    by_cases hlt : 65536 * j < n
    · have hstep : 65536 * j + QUOTA = 65536 * (j + 1) := by simp only [QUOTA]; omega
      have hk : (n + 65535) / 65536 - j = ((n + 65535) / 65536 - (j + 1)) + 1 := by omega
      rw [fillLoop, if_pos hlt]
      simp only []
      rw [hstep, ih (j + 1) _ (by omega), hk, List.range'_succ]
      simp only [QUOTA, List.map_cons, List.append_assoc, List.singleton_append]
    · have h0 : (n + 65535) / 65536 - j = 0 := by omega
      rw [fillLoop, if_neg hlt, h0]
      simp

theorem fillView_length (result : ByteBuffer) (start stop : Nat) (src : Nat → Byte) :
    (fillView result start stop src).length = result.length := by
  simp [fillView]

theorem fillLoop_length (crypto : Entropy) (n : Nat) :
    ∀ (fuel i : Nat) (st : ByteBuffer × List RngCall),
      (fillLoop crypto n fuel i st).1.length = st.1.length := by
  intro fuel
  induction fuel with
  | zero => intro i st; rfl
  | succ fuel ih =>
    intro i st
    rw [fillLoop]
    split
    · simp only []
      rw [ih, fillView_length]
    · rfl

theorem browserFill_calls (crypto : Entropy) (buf : Ref) (n : Nat) (w : World) :
    (browserFill crypto buf n w).1.rngCalls =
      w.rngCalls ++ (quotaRanges n).map (fun r => RngCall.getRandomValues r.1 r.2) := by
  have h := fillLoop_calls crypto n n 0 (List.replicate n 0, w.rngCalls) (by omega)
  simp only [Nat.mul_zero, Nat.sub_zero] at h
  simp only [browserFill, h, quotaRanges, List.map_map, List.range_eq_range']
  rfl

/-- C8: for every requested length `n`, the inner function of the browser branch works
on one result buffer of `n` bytes and calls `getRandomValues` exactly on the
sub-ranges from `i` to `i + min (n - i) 65536`, for `i = 0, 65536, 131072, ...` below
`n`, in this order. Every sub-range is non-empty and at most 65536 bytes long, two
different sub-ranges share no position, the positions covered are exactly those
below `n`, and the number of calls is `n / 65536` rounded up. -/
theorem browser_fill_chunks (crypto : Entropy) (buf : Ref) (n : Nat) (w : World) :
    (fillLoop crypto n n 0 (List.replicate n 0, w.rngCalls)).1.length = n ∧
    (browserFill crypto buf n w).1.rngCalls =
      w.rngCalls ++ (quotaRanges n).map (fun r => RngCall.getRandomValues r.1 r.2) ∧
    (∀ r ∈ quotaRanges n, r.1 < r.2 ∧ r.2 - r.1 ≤ 65536 ∧ r.2 ≤ n) ∧
    (quotaRanges n).Pairwise
      (fun a b => ∀ x, ¬ ((a.1 ≤ x ∧ x < a.2) ∧ (b.1 ≤ x ∧ x < b.2))) ∧
    (∀ x, x < n ↔ ∃ r ∈ quotaRanges n, r.1 ≤ x ∧ x < r.2) ∧
    (quotaRanges n).length = (n + 65535) / 65536 ∧
    (quotaRanges n).length * 65536 < n + 65536 ∧ n ≤ (quotaRanges n).length * 65536 := by
  refine ⟨?_, browserFill_calls crypto buf n w, ?_, ?_, ?_, ?_, ?_, ?_⟩
  · rw [fillLoop_length]; simp
  · intro r hr
    simp only [quotaRanges, List.mem_map, List.mem_range] at hr
    obtain ⟨j, hj, rfl⟩ := hr
    simp only []
    omega
  · simp only [quotaRanges]
    rw [List.pairwise_map]
    refine List.Pairwise.imp ?_ (List.pairwise_lt_range _)
    intro a b hab x
    simp only []
    omega
  · intro x
    simp only [quotaRanges, List.mem_map, List.mem_range]
    constructor
    · intro hx
      refine ⟨_, ⟨x / 65536, by omega, rfl⟩, ?_⟩
      simp only []
      omega
    · rintro ⟨r, ⟨j, hj, rfl⟩, h1, h2⟩
      simp only [] at h1 h2
      omega
  · simp [quotaRanges]
  · simp only [quotaRanges, List.length_map, List.length_range]; omega
  · simp only [quotaRanges, List.length_map, List.length_range]; omega

theorem browser_fill_quota_boundary :
    quotaRanges 0 = [] ∧ quotaRanges 65536 = [(0, 65536)] ∧
    quotaRanges 65537 = [(0, 65536), (65536, 65537)] ∧
    (browserFill sampleEntropy 0 65537 sampleWorld).1.rngCalls
      = [RngCall.getRandomValues 0 65536, RngCall.getRandomValues 65536 65537] := by
  refine ⟨by decide, by decide, by decide, ?_⟩
  rw [browserFill_calls]
  decide

theorem browserFill_when_called (crypto : Entropy) (buf : Ref) (n : Nat) (w : World)
    (hl : (w.heap buf).length = n) :
    (browserFill crypto buf n w).2 = true ∧
    (browserFill crypto buf n w).1.heap buf
      = (fillLoop crypto n n 0 (List.replicate n 0, w.rngCalls)).1 := by
  refine ⟨rfl, ?_⟩
  simp only [browserFill]
  apply blit_heap_dst_of_eq
  rw [fillLoop_length, hl]
  simp

end HaclStubs
